import Mathlib

/-!
Verification development for the SparseHDF5 benchmark programs
(src/benchmarks/sparse.c, vl.c, mm2h5.c, frame-writer-str.c).

Each C routine relevant to the checked claims is shallowly embedded as an
executable Lean function over `Nat`/`Int`/`List`, with overflow made explicit
via `% 2^64` where the C code works with `unsigned long long`/`hsize_t`
wrap-around.  The random number generator is abstracted as an arbitrary
stream of naturals: a call site that computes `rand() % k` is modelled as
`r % k` for an arbitrary `r` drawn from that stream, so all theorems hold
for every RNG outcome.
-/

set_option maxHeartbeats 1000000

namespace SparseHDF5

/-! ### SelectionCodec (spec §4.2)

Modelled from the spec: the selection encode/decode routines (`H5Sencode` /
`H5Sdecode`) live in the HDF5 library, not in this repository's sources;
only the caller `create_encoded_dspace` (sparse.c) is in src/.  Following
spec §4.2, a Selection is an ordered list of selection blocks
(offset + extent per dimension) and the encoding is a stable versioned
layout: version, rank, block count, then per block offset and extent. -/

/-- A rectangular selection block: per-dimension offset and extent. -/
structure SelBlock where
  off : List Nat
  ext : List Nat
  deriving Repr, DecidableEq

/-- A selection: a rank together with an ordered list of blocks. -/
structure Selection where
  rank : Nat
  blocks : List SelBlock
  deriving Repr, DecidableEq

/-- A selection is canonical when every block has exactly `rank` offsets and
`rank` extents. -/
def Selection.Canonical (s : Selection) : Prop :=
  ∀ b ∈ s.blocks, b.off.length = s.rank ∧ b.ext.length = s.rank

instance (s : Selection) : Decidable s.Canonical := by
  unfold Selection.Canonical; infer_instance

/-- Version tag of the encoded-selection layout (spec §4.2: "stable,
versioned layout"). -/
def selVersion : Nat := 1

/-- Serialize one block: its offsets followed by its extents. -/
def encodeBlock (b : SelBlock) : List Nat :=
  b.off ++ b.ext

/-- Modelled from the spec: `encode(selection) -> Bytes` serializes the
ordered block list as version, rank, block count, then per block
offset+extent (spec §4.2). -/
def encodeSel (s : Selection) : List Nat :=
  selVersion :: s.rank :: s.blocks.length :: (s.blocks.map encodeBlock).flatten

/-- Parse `n` blocks of rank `rank` from the stream; fails if the stream is
too short or has trailing garbage. -/
def decodeBlocks (rank : Nat) : Nat → List Nat → Option (List SelBlock)
  | 0, [] => some []
  | 0, _ :: _ => none
  | n + 1, rest =>
    let off := rest.take rank
    let rest1 := rest.drop rank
    let ext := rest1.take rank
    let rest2 := rest1.drop rank
    if off.length = rank ∧ ext.length = rank then
      (decodeBlocks rank n rest2).map (fun bs => ⟨off, ext⟩ :: bs)
    else
      none

/-- Modelled from the spec: `decode(bytes) -> Selection`, the exact inverse
of `encodeSel` (spec §4.2). -/
def decodeSel : List Nat → Option Selection
  | v :: r :: c :: rest =>
    if v = selVersion then (decodeBlocks r c rest).map (fun bs => ⟨r, bs⟩)
    else none
  | _ => none

/-- The byte buffer that `create_encoded_dspace` (sparse.c:357-378) obtains
from the selection encoder and writes to the "selection" dataset. -/
def createEncodedDspaceBuf (s : Selection) : List Nat :=
  encodeSel s

lemma decodeBlocks_encode (rank : Nat) :
    ∀ bs : List SelBlock,
      (∀ b ∈ bs, b.off.length = rank ∧ b.ext.length = rank) →
      decodeBlocks rank bs.length ((bs.map encodeBlock).flatten) = some bs := by
  intro bs
  induction bs with
  | nil => intro _; rfl
  | cons b bs ih =>
    intro h
    obtain ⟨hoff, hext⟩ := h b (List.mem_cons_self _ _)
    have hrest : ∀ b' ∈ bs, b'.off.length = rank ∧ b'.ext.length = rank :=
      fun b' hb' => h b' (List.mem_cons_of_mem _ hb')
    simp only [List.map_cons, List.flatten, List.length_cons]
    show decodeBlocks rank (bs.length + 1) (encodeBlock b ++ (bs.map encodeBlock).flatten) = _
    rw [decodeBlocks]
    have h1 : (encodeBlock b ++ (bs.map encodeBlock).flatten).take rank = b.off := by
      rw [encodeBlock, List.append_assoc, ← hoff, List.take_left]
    have h2 : (encodeBlock b ++ (bs.map encodeBlock).flatten).drop rank
        = b.ext ++ (bs.map encodeBlock).flatten := by
      rw [encodeBlock, List.append_assoc, ← hoff, List.drop_left]
    simp only [h1, h2]
    have h3 : (b.ext ++ (bs.map encodeBlock).flatten).take rank = b.ext := by
      rw [← hext, List.take_left]
    have h4 : (b.ext ++ (bs.map encodeBlock).flatten).drop rank = (bs.map encodeBlock).flatten := by
      rw [← hext, List.drop_left]
    simp only [h3, h4, hoff, hext, and_self, if_true]
    rw [ih hrest]
    rfl

/-! ### sparse.c: configuration validation (parse_command_line, sparse.c:262-281)

`parse_command_line` validates the parsed options in order and calls
`exit(1)` on the first invalid one, before `main` performs any file I/O
(`H5Fcreate` comes after `parse_command_line` in sparse.c:598-606). -/

/-- Validation performed at the end of `parse_command_line` (sparse.c:262-281):
max_percent must be in [1,20], space_select in [1,3], d in [0,1], v in [0,1]. -/
def acceptsConfig (maxPercent spaceSelect d v : Int) : Bool :=
  (1 ≤ maxPercent && maxPercent ≤ 20) &&
  (1 ≤ spaceSelect && spaceSelect ≤ 3) &&
  (0 ≤ d && d ≤ 1) &&
  (0 ≤ v && v ≤ 1)

/-- Observable top-level actions of sparse.c's `main`, abstracted. -/
inductive SparseEvent where
  | exitInvalid
  | fileCreate
  deriving Repr, DecidableEq

/-- `main` (sparse.c:584-606): parse and validate the command line first;
on invalid configuration exit with status 1 before any I/O, otherwise
proceed to create the output file. -/
def sparseMainTrace (maxPercent spaceSelect d v : Int) : List SparseEvent :=
  if acceptsConfig maxPercent spaceSelect d v then
    [SparseEvent.fileCreate]
  else
    [SparseEvent.exitInvalid]

/-! ### sparse.c: create_hyperslab (sparse.c:507-578) -/

/-- `sections = 100 / select_percent` (sparse.c:511, 525). -/
def sections (p : Nat) : Nat := 100 / p

/-- `num_selections = hand.chunk_dim2 * select_percent / 100` (sparse.c:510, 524). -/
def numSelections (cols p : Nat) : Nat := cols * p / 100

/-- Scattered-points topology (sparse.c:523-544, `space_select == 1`): for
each row `i` and each bucket `j < num_selections`, select the single point
`(i, j * sections + rand() % sections)`.  `r i j` is the RNG value drawn at
iteration `(i, j)`. -/
def scatteredSel (rows cols p : Nat) (r : Nat → Nat → Nat) : List (Nat × Nat) :=
  (List.range rows).flatMap fun i =>
    (List.range (numSelections cols p)).map fun j =>
      (i, j * sections p + r i j % sections p)

/-- The element count returned by `create_hyperslab` for the scattered
topology: `nelemts` is incremented once per selected point (sparse.c:542). -/
def scatteredNelemts (rows cols p : Nat) (r : Nat → Nat → Nat) : Nat :=
  (scatteredSel rows cols p r).length

/-- Rectangular-block topology, origin (sparse.c:547-548): the block origin
in dimension of size `dim` is `rand() % (dim / 2)`. -/
def rectOrigin (dim r : Nat) : Nat := r % (dim / 2)

/-- Rectangular-block topology, extent (sparse.c:551-552): the block extent
in dimension of size `dim` is `(hsize_t)(dim * sqrt(select_percent) / 10)`,
i.e. `⌊dim * √p / 10⌋`.  Since `⌊dim·√p/10⌋ = ⌊⌊√(dim²·p)⌋/10⌋`, this is
expressed exactly with the integer square root. -/
def rectExtent (dim p : Nat) : Nat := Nat.sqrt (dim * dim * p) / 10

/-- The element count returned by `create_hyperslab` for the rectangular
topology: `nelemts = block[0] * block[1]` (sparse.c:556). -/
def rectNelemts (dim1 dim2 p : Nat) : Nat := rectExtent dim1 p * rectExtent dim2 p

/-- Contiguous row-run topology, run length (sparse.c:560):
`block[1] = hand.chunk_dim2 * select_percent / 100`, used as-is with no
clamping. -/
def contigRunLen (cols p : Nat) : Nat := cols * p / 100

/-- Contiguous row-run topology (sparse.c:557-576): one run per row, the
run in row `i` starting at column `rand() % (cols - block[1])` with block
extent `(1, block[1])`.  Each list entry is `(offset, block)` exactly as
passed to `H5Sselect_hyperslab`. -/
def contigBlocks (rows cols p : Nat) (r : Nat → Nat) :
    List ((Nat × Nat) × (Nat × Nat)) :=
  (List.range rows).map fun i =>
    ((i, r i % (cols - contigRunLen cols p)), (1, contigRunLen cols p))

/-- The element count returned by `create_hyperslab` for the contiguous
topology: `nelemts = hand.chunk_dim1 * block[1]` (sparse.c:575). -/
def contigNelemts (rows cols p : Nat) : Nat := rows * contigRunLen cols p

/-! ### vl.c: variable-length index and blob construction (create_dsets,
vl.c:184-213)

The loop at vl.c:186-205 appends, for element `i`, the pair
`(offset, vl_data[i].len)` to `the_pairs` and then advances
`offset += vl_data[i].len`; the loop at vl.c:210-213 copies every
element's bytes into `all_strings` in the same order. -/

/-- The offset/length pair array built by create_dsets (vl.c:198-201),
parameterized by the running offset: pair `i` is
`(running offset, length of element i)`. -/
def vlPairs : Nat → List Nat → List (Nat × Nat)
  | _, [] => []
  | off, l :: ls => (off, l) :: vlPairs (off + l) ls

/-- The blob buffer `all_strings` (vl.c:208-213): the concatenation, by the
memcpy loop, of all elements' bytes in enumeration order. -/
def vlBlob (ss : List (List Nat)) : List Nat :=
  ss.foldl (fun acc s => acc ++ s) []

/-! ### mm2h5.c: group ingestion and verification (main, mm2h5.c:121-313) -/

/-- Wrap-around decrement `x--` on an `unsigned long long` 0-based
coordinate (mm2h5.c:212: `a[i]--; b[i]--;`). -/
def decCoord (x : Nat) : Nat := (x + (2 ^ 64 - 1)) % 2 ^ 64

/-- Wrap-around increment used when the sampled-verification report prints
`points[idx].a+1, points[idx].b+1` (mm2h5.c:291). -/
def incCoord (x : Nat) : Nat := (x + 1) % 2 ^ 64

/-- The stored verification point for an ingested triplet `(a, b, c)`
(mm2h5.c:212, 219-224): both coordinates are decremented before being
saved (and before being used as the write coordinates). -/
def storedPoint (t : Nat × Nat × Nat) : Nat × Nat × Nat :=
  (decCoord t.1, decCoord t.2.1, t.2.2)

/-- The coordinate pair printed for a sampled verification point
(mm2h5.c:290-293): the stored 0-based coordinates re-incremented by one. -/
def printedCoords (stored : Nat × Nat × Nat) : Nat × Nat :=
  (incCoord stored.1, incCoord stored.2.1)

/-- The chunk selection built for one group (mm2h5.c:227-232):
`H5Sselect_none` followed by one `H5S_SELECT_OR` of a 1x1 block per
coordinate — a left fold of set-union insertion starting from the empty
selection. -/
def groupSelection (coords : List (Nat × Nat)) : Finset (Nat × Nat) :=
  coords.foldl (fun s q => insert q s) ∅

/-- The selection built when a whole group of raw triplets is ingested:
each triplet's `(a, b)` is first decremented (mm2h5.c:212), then OR-ed into
the selection (mm2h5.c:228-232). -/
def ingestGroupSelection (ts : List (Nat × Nat × Nat)) : Finset (Nat × Nat) :=
  groupSelection (ts.map fun t => (decCoord t.1, decCoord t.2.1))

/-- `VERIFY_ALL_LIMIT` (mm2h5.c:42). -/
def verifyAllLimit : Nat := 10000

/-- `VERIFY_POINTS` (mm2h5.c:41). -/
def verifyPoints : Nat := 10

/-- `check_count = (total_points <= VERIFY_ALL_LIMIT) ? total_points :
VERIFY_POINTS` (mm2h5.c:258). -/
def checkCount (total : Nat) : Nat :=
  if total ≤ verifyAllLimit then total else verifyPoints

/-- The indices of the stored points examined by the verification phase
(mm2h5.c:261-299): every index when `total ≤ 10000`, otherwise ten indices
`rand() % total_points` drawn with replacement; `r i` is the RNG value of
draw `i`. -/
def chosenIndices (total : Nat) (r : Nat → Nat) : List Nat :=
  if total ≤ verifyAllLimit then List.range total
  else (List.range verifyPoints).map fun i => r i % total

/-- Verification summary (mm2h5.c:306-309). -/
structure VReport where
  checked : Nat
  mismatches : Nat
  deriving Repr, DecidableEq

/-- The verification loop over the chosen points (mm2h5.c:261-299): each
entry pairs the expected value with the value read back; a mismatch only
increments the mismatch counter and the loop always runs to completion.
Returns the report together with the process exit status, which is
`EXIT_SUCCESS` (mm2h5.c:312) regardless of the mismatch count. -/
def runVerification (pts : List (Nat × Nat)) : VReport × Nat :=
  (⟨pts.length,
    pts.foldl (fun m q => if q.2 = q.1 then m else m + 1) 0⟩, 0)

/-- The printed match rate (mm2h5.c:305):
`check_count ? 100.0 * (check_count - mismatches) / check_count : 0.0`. -/
def matchRate (rep : VReport) : ℚ :=
  if rep.checked = 0 then 0
  else 100 * ((rep.checked : ℚ) - rep.mismatches) / rep.checked

/-! ### frame-writer-str.c: per-chunk selection sizes (main,
frame-writer-str.c:149-206)

`mfrac` is a double parsed from `m=FLOAT` divided by 100; it is modelled
exactly as the rational `num / den`. -/

/-- `num_points = (hsize_t)(this_rows * this_cols * mfrac)`
(frame-writer-str.c:151) with `mfrac = num / den`. -/
def fwNumPoints (rows cols num den : Nat) : Nat := rows * cols * num / den

/-- `if (num_points == 0) num_points = 1;` (frame-writer-str.c:152). -/
def fwNumPointsClamped (rows cols num den : Nat) : Nat :=
  if fwNumPoints rows cols num den = 0 then 1 else fwNumPoints rows cols num den

/-- `slab_rows = (hsize_t)(this_rows * sqrt(mfrac))`
(frame-writer-str.c:199-200) with `mfrac = num / den`, i.e.
`⌊rows·√(num/den)⌋ = ⌊⌊√(rows²·num·den)⌋/den⌋`, expressed with the integer
square root. -/
def fwSlabExtent (dim num den : Nat) : Nat := Nat.sqrt (dim * dim * num * den) / den

/-- `if (slab_rows == 0) slab_rows = 1;` and likewise for `slab_cols`
(frame-writer-str.c:201-202). -/
def fwSlabExtentClamped (dim num den : Nat) : Nat :=
  if fwSlabExtent dim num den = 0 then 1 else fwSlabExtent dim num den

/-! ## Helper lemmas -/

lemma groupSelection_append (coords extra : List (Nat × Nat)) :
    groupSelection (coords ++ extra)
      = extra.foldl (fun s q => insert q s) (groupSelection coords) := by
  simp [groupSelection, List.foldl_append]

lemma foldl_insert_eq (l : List (Nat × Nat)) :
    ∀ s : Finset (Nat × Nat), l.foldl (fun s q => insert q s) s = s ∪ l.toFinset := by
  induction l with
  | nil => intro s; simp
  | cons q l ih =>
    intro s
    simp only [List.foldl_cons, List.toFinset_cons, ih]
    ext x
    simp [or_comm, or_left_comm]

lemma groupSelection_eq_toFinset (coords : List (Nat × Nat)) :
    groupSelection coords = coords.toFinset := by
  simp [groupSelection, foldl_insert_eq]

lemma vlBlob_eq_flatten (ss : List (List Nat)) : vlBlob ss = ss.flatten := by
  suffices h : ∀ acc : List Nat,
      ss.foldl (fun a s => a ++ s) acc = acc ++ ss.flatten by
    simpa [vlBlob] using h []
  induction ss with
  | nil => intro acc; simp
  | cons s ss ih => intro acc; simp [ih]

lemma vlPairs_length : ∀ (ls : List Nat) (off : Nat),
    (vlPairs off ls).length = ls.length := by
  intro ls
  induction ls with
  | nil => intro off; rfl
  | cons l ls ih => intro off; simp [vlPairs, ih]

lemma vlPairs_getD : ∀ (ls : List Nat) (off i : Nat), i < ls.length →
    (vlPairs off ls).getD i (0, 0) = (off + (ls.take i).sum, ls.getD i 0) := by
  intro ls
  induction ls with
  | nil => intro off i h; simp at h
  | cons l ls ih =>
    intro off i h
    cases i with
    | zero => simp [vlPairs]
    | succ i =>
      have hi : i < ls.length := by simpa using h
      rw [vlPairs, List.getD_cons_succ, ih (off + l) i hi,
        List.take_succ_cons, List.sum_cons, Nat.add_assoc, List.getD_cons_succ]

lemma take_sum_getD (ls : List Nat) (i : Nat) (h : i < ls.length) :
    (ls.take i).sum + ls.getD i 0 = (ls.take (i + 1)).sum := by
  induction ls generalizing i with
  | nil => simp at h
  | cons l ls ih =>
    cases i with
    | zero => simp
    | succ i =>
      have hi : i < ls.length := by simpa using h
      rw [List.take_succ_cons, List.sum_cons, List.getD_cons_succ,
        List.take_succ_cons, List.sum_cons, Nat.add_assoc, ih i hi]

lemma bucket_inj {s : Nat} (hs : 0 < s) {j1 j2 a1 a2 : Nat}
    (h1 : a1 < s) (h2 : a2 < s) (he : j1 * s + a1 = j2 * s + a2) : j1 = j2 := by
  have e1 : (a1 + s * j1) / s = j1 := by
    rw [Nat.add_mul_div_left _ _ hs, Nat.div_eq_of_lt h1, Nat.zero_add]
  have e2 : (a2 + s * j2) / s = j2 := by
    rw [Nat.add_mul_div_left _ _ hs, Nat.div_eq_of_lt h2, Nat.zero_add]
  have he' : a1 + s * j1 = a2 + s * j2 := by
    rw [Nat.add_comm a1, Nat.add_comm a2, Nat.mul_comm s, Nat.mul_comm s]
    exact he
  rw [← e1, ← e2, he']

lemma sections_pos {p : Nat} (hp1 : 1 ≤ p) (hp2 : p ≤ 20) : 0 < sections p := by
  have : 5 ≤ 100 / p := Nat.le_div_iff_mul_le (by omega) |>.mpr (by omega)
  unfold sections
  omega

lemma scatteredSel_length (rows cols p : Nat) (r : Nat → Nat → Nat) :
    (scatteredSel rows cols p r).length = rows * numSelections cols p := by
  induction rows with
  | zero => simp [scatteredSel]
  | succ n ih =>
    simp only [scatteredSel, List.range_succ, List.flatMap_append] at ih ⊢
    simp only [List.length_append, ih]
    simp [Nat.succ_mul]

lemma scatteredSel_nodup (rows cols p : Nat) (r : Nat → Nat → Nat)
    (hp1 : 1 ≤ p) (hp2 : p ≤ 20) :
    (scatteredSel rows cols p r).Nodup := by
  have hs : 0 < sections p := sections_pos hp1 hp2
  rw [scatteredSel, List.nodup_flatMap]
  constructor
  · intro i _
    refine List.Nodup.map_on ?_ (List.nodup_range _)
    intro j1 h1 j2 h2 he
    have he' : j1 * sections p + r i j1 % sections p
        = j2 * sections p + r i j2 % sections p := by
      simpa using congrArg Prod.snd he
    exact bucket_inj hs (Nat.mod_lt _ hs) (Nat.mod_lt _ hs) he'
  · refine (List.nodup_range rows).imp ?_
    intro i1 i2 hne q hq1 hq2
    simp only [List.mem_map, List.mem_range] at hq1 hq2
    obtain ⟨j1, _, rfl⟩ := hq1
    obtain ⟨j2, _, he⟩ := hq2
    exact hne (congrArg Prod.fst he).symm

lemma rect_fit (d p r : Nat) (hd : 2 ≤ d) (hp2 : p ≤ 20) :
    r % (d / 2) + rectExtent d p ≤ d := by
  have hmod : r % (d / 2) < d / 2 := Nat.mod_lt _ (by omega)
  have hsq : Nat.sqrt (d * d * p) < 5 * d := by
    rw [Nat.sqrt_lt]
    calc d * d * p ≤ d * d * 20 := Nat.mul_le_mul_left _ hp2
      _ < 5 * d * (5 * d) := by nlinarith
  unfold rectExtent
  omega

lemma mismatch_foldl (pts : List (Nat × Nat)) :
    ∀ m : Nat, pts.foldl (fun m q => if q.2 = q.1 then m else m + 1) m
      = m + pts.countP (fun q => decide (q.2 ≠ q.1)) := by
  induction pts with
  | nil => intro m; simp
  | cons q pts ih =>
    intro m
    by_cases h : q.2 = q.1 <;>
      simp [List.countP_cons, h, ih, Nat.add_assoc, Nat.add_comm]

/-! ## Claim theorems -/

/-- C1.  Selection round-trip: for every canonical selection `s`,
`decode(encode(s)) = s` — so the decoded selection has the same point set
and the same row-major enumeration order as `s` — and the byte buffer that
`create_encoded_dspace` writes to the "selection" dataset is exactly the
encoding of the current hyperslab selection, whose decoding recovers the
selection exactly. -/
theorem C1_selection_roundtrip (s : Selection) (h : s.Canonical) :
    createEncodedDspaceBuf s = encodeSel s ∧
    decodeSel (createEncodedDspaceBuf s) = some s := by
  refine ⟨rfl, ?_⟩
  show decodeSel (encodeSel s) = some s
  rw [encodeSel, decodeSel]
  rw [if_pos rfl, decodeBlocks_encode s.rank s.blocks h]
  rfl

/-- Witness for C1 at a concrete canonical two-block rank-2 selection. -/
theorem C1_selection_roundtrip_witness :
    (Selection.Canonical ⟨2, [⟨[0, 0], [1, 2]⟩, ⟨[3, 4], [2, 2]⟩]⟩) ∧
    decodeSel (createEncodedDspaceBuf ⟨2, [⟨[0, 0], [1, 2]⟩, ⟨[3, 4], [2, 2]⟩]⟩)
      = some ⟨2, [⟨[0, 0], [1, 2]⟩, ⟨[3, 4], [2, 2]⟩]⟩ :=
  ⟨by decide,
    (C1_selection_roundtrip ⟨2, [⟨[0, 0], [1, 2]⟩, ⟨[3, 4], [2, 2]⟩]⟩ (by decide)).2⟩

/-- C2.  Scattered-points topology: for every chunk bounds with
`rows ≥ 1`, `cols ≥ 1` and every density percent the program accepts
(1..20, see `acceptsConfig`), and for every RNG outcome, the generated
selection has exactly `rows * (cols * p / 100)` points, all pairwise
distinct, each row contributing one point from each of the
`num_selections` disjoint column buckets of width `100 / p`, and the
returned element count equals this number. -/
theorem C2_scattered_point_count (rows cols p : Nat) (r : Nat → Nat → Nat)
    (hrows : 1 ≤ rows) (hcols : 1 ≤ cols) (hp1 : 1 ≤ p) (hp2 : p ≤ 20) :
    scatteredNelemts rows cols p r = rows * numSelections cols p ∧
    (scatteredSel rows cols p r).length = rows * numSelections cols p ∧
    (scatteredSel rows cols p r).Nodup ∧
    (∀ i j, i < rows → j < numSelections cols p →
      (i, j * sections p + r i j % sections p) ∈ scatteredSel rows cols p r ∧
      j * sections p ≤ j * sections p + r i j % sections p ∧
      j * sections p + r i j % sections p < (j + 1) * sections p) := by
  have hs : 0 < sections p := sections_pos hp1 hp2
  refine ⟨scatteredSel_length rows cols p r, scatteredSel_length rows cols p r,
    scatteredSel_nodup rows cols p r hp1 hp2, ?_⟩
  intro i j hi hj
  refine ⟨?_, Nat.le_add_right _ _, ?_⟩
  · rw [scatteredSel]
    refine List.mem_flatMap.mpr ⟨i, List.mem_range.mpr hi, ?_⟩
    exact List.mem_map.mpr ⟨j, List.mem_range.mpr hj, rfl⟩
  · have := Nat.mod_lt (r i j) hs
    calc j * sections p + r i j % sections p
        < j * sections p + sections p := by omega
      _ = (j + 1) * sections p := by ring

/-- Witness for C2 at a concrete input: 2 rows, 100 columns, density 20
(so 20 selections per row over buckets of width 5). -/
theorem C2_scattered_point_count_witness :
    scatteredNelemts 2 100 20 (fun i j => i * 7 + j) = 2 * numSelections 100 20 ∧
    (scatteredSel 2 100 20 (fun i j => i * 7 + j)).Nodup ∧
    numSelections 100 20 = 20 ∧ sections 20 = 5 :=
  ⟨(C2_scattered_point_count 2 100 20 (fun i j => i * 7 + j)
      (by decide) (by decide) (by decide) (by decide)).1,
   (C2_scattered_point_count 2 100 20 (fun i j => i * 7 + j)
      (by decide) (by decide) (by decide) (by decide)).2.2.1,
   by decide, by decide⟩

/-- C3.  Variable-length index invariant: for every sequence of
variable-length elements, the offset/length pair array satisfies
`pair[0].offset = 0`, `pair[i].offset = sum of lengths of elements 0..i-1`,
the final pair's offset+length equals the total blob length, and the blob
is the concatenation of the elements' bytes in enumeration order. -/
theorem C3_vl_index_invariant (ss : List (List Nat)) (i : Nat)
    (hi : i < ss.length) :
    (vlPairs 0 (ss.map List.length)).length = ss.length ∧
    ((vlPairs 0 (ss.map List.length)).getD 0 (0, 0)).1 = 0 ∧
    (vlPairs 0 (ss.map List.length)).getD i (0, 0)
      = (((ss.map List.length).take i).sum, (ss.map List.length).getD i 0) ∧
    ((vlPairs 0 (ss.map List.length)).getD (ss.length - 1) (0, 0)).1
        + ((vlPairs 0 (ss.map List.length)).getD (ss.length - 1) (0, 0)).2
      = (vlBlob ss).length ∧
    vlBlob ss = ss.flatten := by
  set ls := ss.map List.length with hls
  have hlen : ls.length = ss.length := by simp [hls]
  have hlast : ss.length - 1 < ls.length := by omega
  refine ⟨by rw [vlPairs_length, hlen], ?_, ?_, ?_, vlBlob_eq_flatten ss⟩
  · rw [vlPairs_getD ls 0 0 (by omega)]
    simp
  · rw [vlPairs_getD ls 0 i (by omega)]
    simp
  · rw [vlPairs_getD ls 0 (ss.length - 1) hlast]
    simp only [Nat.zero_add]
    rw [take_sum_getD ls (ss.length - 1) hlast]
    have h1 : ss.length - 1 + 1 = ls.length := by omega
    rw [h1, List.take_length, vlBlob_eq_flatten ss, List.length_flatten, hls]

/-- Witness for C3 at a concrete three-element sequence. -/
theorem C3_vl_index_invariant_witness :
    (vlPairs 0 ([[1, 2], [3], [4, 5, 6]].map List.length)).getD 1 (0, 0)
      = ((([[1, 2], [3], [4, 5, 6]].map List.length).take 1).sum,
         ([[1, 2], [3], [4, 5, 6]].map List.length).getD 1 0) ∧
    vlBlob [[1, 2], [3], [4, 5, 6]] = [[1, 2], [3], [4, 5, 6]].flatten :=
  ⟨(C3_vl_index_invariant [[1, 2], [3], [4, 5, 6]] 1 (by decide)).2.2.1,
   (C3_vl_index_invariant [[1, 2], [3], [4, 5, 6]] 1 (by decide)).2.2.2.2⟩

/-- C4.  Union dedup: merging a group's coordinates into the selection uses
set-union semantics — OR-ing in a coordinate that is already selected
leaves the selection unchanged, the final selection cardinality equals the
number of distinct coordinates of the group, and ingesting the triplets
(0,5,9), (0,5,9), (1,5,3) as one group yields a selection of exactly 2
points. -/
theorem C4_union_dedup :
    (∀ (coords : List (Nat × Nat)) (q : Nat × Nat), q ∈ groupSelection coords →
      groupSelection (coords ++ [q]) = groupSelection coords) ∧
    (∀ coords : List (Nat × Nat),
      (groupSelection coords).card = coords.dedup.length) ∧
    (ingestGroupSelection [(0, 5, 9), (0, 5, 9), (1, 5, 3)]).card = 2 := by
  refine ⟨?_, ?_, ?_⟩
  · intro coords q hq
    rw [groupSelection_append]
    simpa using Finset.insert_eq_self.mpr hq
  · intro coords
    rw [groupSelection_eq_toFinset, List.card_toFinset]
  · rw [ingestGroupSelection, groupSelection_eq_toFinset, List.card_toFinset]
    rfl

/-- Witness for C4's idempotent-union conjunct at a concrete coordinate. -/
theorem C4_union_dedup_witness :
    groupSelection ([(3, 4)] ++ [(3, 4)]) = groupSelection [(3, 4)] :=
  C4_union_dedup.1 [(3, 4)] (3, 4) (by decide)

/-- C5.  Verification threshold: if the total number of stored points is at
most 10000 the verifier checks every stored point (checked count =
total), otherwise it checks exactly 10 indices drawn (with replacement)
as `rand() % total_points`. -/
theorem C5_verification_threshold (total : Nat) (r : Nat → Nat) :
    checkCount total = (chosenIndices total r).length ∧
    (total ≤ 10000 →
      chosenIndices total r = List.range total ∧ checkCount total = total) ∧
    (10000 < total →
      (chosenIndices total r).length = 10 ∧ checkCount total = 10 ∧
      ∀ k ∈ chosenIndices total r, k < total ∧ ∃ i, i < 10 ∧ k = r i % total) := by
  refine ⟨?_, ?_, ?_⟩
  · by_cases h : total ≤ 10000 <;>
      simp [checkCount, chosenIndices, verifyAllLimit, verifyPoints, h]
  · intro h
    simp [checkCount, chosenIndices, verifyAllLimit, h]
  · intro h
    have h' : ¬ total ≤ 10000 := by omega
    refine ⟨by simp [chosenIndices, verifyAllLimit, verifyPoints, h'],
      by simp [checkCount, verifyAllLimit, verifyPoints, h'], ?_⟩
    intro k hk
    simp only [chosenIndices, verifyAllLimit, if_neg h', List.mem_map,
      List.mem_range, verifyPoints] at hk
    obtain ⟨i, hi, rfl⟩ := hk
    exact ⟨Nat.mod_lt _ (by omega), i, hi, rfl⟩

/-- Witness for C5 on both sides of the threshold: 10000 stored points are
all checked, 10001 stored points give exactly 10 sampled checks. -/
theorem C5_verification_threshold_witness :
    checkCount 10000 = 10000 ∧ (chosenIndices 10001 id).length = 10 :=
  ⟨((C5_verification_threshold 10000 id).2.1 (by decide)).2,
   ((C5_verification_threshold 10001 id).2.2 (by decide)).1⟩

/-- C7.  Rectangular block containment: for chunk bounds of at least 2 in
each dimension (so that the quadrant `dim/2` used by `rand() % (dim/2)` is
non-empty), every accepted density percent (1..20) and every RNG outcome,
the block origin lies in the upper-left quadrant, the block never exits the
chunk bounds, each extent is `⌊dim_i * sqrt(p) / 10⌋`, and the returned
point count is the product of the extents. -/
theorem C7_rect_containment (dim1 dim2 p r1 r2 : Nat)
    (h1 : 2 ≤ dim1) (h2 : 2 ≤ dim2) (hp1 : 1 ≤ p) (hp2 : p ≤ 20) :
    rectOrigin dim1 r1 < dim1 / 2 ∧ rectOrigin dim2 r2 < dim2 / 2 ∧
    rectOrigin dim1 r1 + rectExtent dim1 p ≤ dim1 ∧
    rectOrigin dim2 r2 + rectExtent dim2 p ≤ dim2 ∧
    rectNelemts dim1 dim2 p = rectExtent dim1 p * rectExtent dim2 p := by
  refine ⟨Nat.mod_lt _ (by omega), Nat.mod_lt _ (by omega),
    rect_fit dim1 p r1 h1 hp2, rect_fit dim2 p r2 h2 hp2, rfl⟩

/-- Witness for C7 at bounds 100x100, density 20 (extents 44), RNG values
49 and 37. -/
theorem C7_rect_containment_witness :
    rectOrigin 100 49 + rectExtent 100 20 ≤ 100 ∧
    rectOrigin 100 37 + rectExtent 100 20 ≤ 100 :=
  ⟨(C7_rect_containment 100 100 20 49 37
      (by decide) (by decide) (by decide) (by decide)).2.2.1,
   (C7_rect_containment 100 100 20 49 37
      (by decide) (by decide) (by decide) (by decide)).2.2.2.1⟩

/-- C9.  Mismatches are diagnostic, not fatal: the verification loop runs
to completion over all chosen points, each mismatch only increments the
mismatch counter, the summary reports checked, mismatches and the match
rate `100*(checked-mismatches)/checked`, and the process exit status is 0
(EXIT_SUCCESS) regardless of the mismatch count. -/
theorem C9_mismatch_diagnostic (pts : List (Nat × Nat)) (hne : pts ≠ []) :
    (runVerification pts).1.checked = pts.length ∧
    (runVerification pts).1.mismatches
      = pts.countP (fun q => decide (q.2 ≠ q.1)) ∧
    (runVerification pts).2 = 0 ∧
    matchRate (runVerification pts).1
      = 100 * ((pts.length : ℚ) - (runVerification pts).1.mismatches)
          / pts.length := by
  refine ⟨rfl, by simpa using mismatch_foldl pts 0, rfl, ?_⟩
  have hlen : pts.length ≠ 0 := by
    intro h
    exact hne (List.eq_nil_of_length_eq_zero h)
  rw [matchRate]
  simp only [runVerification]
  rw [if_neg hlen]

/-- Witness for C9 at a stream with one match and one mismatch: the exit
status is still 0 and the loop checked both points. -/
theorem C9_mismatch_diagnostic_witness :
    (runVerification [(1, 1), (2, 3)]).2 = 0 ∧
    (runVerification [(1, 1), (2, 3)]).1.checked = 2 ∧
    (runVerification [(1, 1), (2, 3)]).1.mismatches = 1 :=
  ⟨(C9_mismatch_diagnostic [(1, 1), (2, 3)] (by decide)).2.2.1,
   (C9_mismatch_diagnostic [(1, 1), (2, 3)] (by decide)).1,
   by rw [(C9_mismatch_diagnostic [(1, 1), (2, 3)] (by decide)).2.1]; decide⟩

/-- C10.  Implicit 1-based coordinate convention: for every ingested
triplet `(a, b, c)` with `a ≥ 1` and `b ≥ 1` (within the unsigned 64-bit
range), the ingester decrements both coordinates before using them as
0-based dataset coordinates for the write and the stored verification
points, and the sampled-verification output prints them re-incremented by
one, i.e. back in 1-based form. -/
theorem C10_one_based_convention (a b c : Nat)
    (ha1 : 1 ≤ a) (ha2 : a < 2 ^ 64) (hb1 : 1 ≤ b) (hb2 : b < 2 ^ 64) :
    storedPoint (a, b, c) = (a - 1, b - 1, c) ∧
    printedCoords (storedPoint (a, b, c)) = (a, b) := by
  have hda : decCoord a = a - 1 := by unfold decCoord; omega
  have hdb : decCoord b = b - 1 := by unfold decCoord; omega
  constructor
  · simp [storedPoint, hda, hdb]
  · simp only [storedPoint, printedCoords, hda, hdb, incCoord]
    rw [Prod.mk.injEq]
    constructor <;> omega

/-- Witness for C10 at the 1-based triplet (3, 5, 7). -/
theorem C10_one_based_convention_witness :
    storedPoint (3, 5, 7) = (2, 4, 7) ∧
    printedCoords (storedPoint (3, 5, 7)) = (3, 5) :=
  C10_one_based_convention 3 5 7 (by decide) (by norm_num) (by decide) (by norm_num)

/-- C6 counterexample: the claim says every maximum density percent in
[1,100] is accepted, but `parse_command_line` (sparse.c:263-266) rejects
21 — which is inside [1,100] — with the invalid-density error, exiting
before any file I/O. -/
theorem C6_density_range_cex :
    ((1 : Int) ≤ 21 ∧ (21 : Int) ≤ 100) ∧
    acceptsConfig 21 1 1 0 = false ∧
    sparseMainTrace 21 1 1 0 = [SparseEvent.exitInvalid] := by
  decide

/-- C6 (amended).  Density-percent validation: with the other options
valid, the program accepts a maximum density percent exactly when it lies
in [1,20] (`MAX_PERCENT` is 20), and when the value lies outside [1,20] it
fails fast with the invalid-density error before any file I/O. -/
theorem C6_density_validation (m s d v : Int)
    (hs : 1 ≤ s ∧ s ≤ 3) (hd : 0 ≤ d ∧ d ≤ 1) (hv : 0 ≤ v ∧ v ≤ 1) :
    (acceptsConfig m s d v = true ↔ 1 ≤ m ∧ m ≤ 20) ∧
    (¬(1 ≤ m ∧ m ≤ 20) →
      sparseMainTrace m s d v = [SparseEvent.exitInvalid] ∧
      SparseEvent.fileCreate ∉ sparseMainTrace m s d v) := by
  obtain ⟨hs1, hs2⟩ := hs
  obtain ⟨hd1, hd2⟩ := hd
  obtain ⟨hv1, hv2⟩ := hv
  have hacc : acceptsConfig m s d v = true ↔ 1 ≤ m ∧ m ≤ 20 := by
    simp only [acceptsConfig, Bool.and_eq_true, decide_eq_true_eq]
    constructor
    · rintro ⟨⟨⟨h1, _⟩, _⟩, _⟩
      exact h1
    · intro h
      exact ⟨⟨⟨h, ⟨hs1, hs2⟩⟩, ⟨hd1, hd2⟩⟩, ⟨hv1, hv2⟩⟩
  refine ⟨hacc, ?_⟩
  intro hm
  have hfalse : acceptsConfig m s d v = false := by
    rcases Bool.eq_false_or_eq_true (acceptsConfig m s d v) with h | h
    · exact absurd (hacc.mp h) hm
    · exact h
  rw [sparseMainTrace, hfalse]
  simp

/-- Witness for C6: 20 is accepted and 21 exits before any file I/O. -/
theorem C6_density_validation_witness :
    acceptsConfig 20 1 1 0 = true ∧
    sparseMainTrace 21 1 1 0 = [SparseEvent.exitInvalid] :=
  ⟨(C6_density_validation 20 1 1 0 (by decide) (by decide) (by decide)).1.mpr
      (by decide),
   ((C6_density_validation 21 1 1 0 (by decide) (by decide) (by decide)).2
      (by decide)).1⟩

/-- C8 counterexample: the claim says every selection generator clamps a
run length or block extent that floors to 0 up to 1 before use, but
`create_hyperslab`'s contiguous topology (sparse.c:557-576) applies no
clamp: with chunk columns 50 and density 1%, the computed run length
`50 * 1 / 100` floors to 0 and the hyperslab block actually passed to the
selection call (and the returned element count) use 0, not 1. -/
theorem C8_no_clamp_cex :
    contigRunLen 50 1 = 0 ∧
    ((contigBlocks 1 50 1 (fun _ => 0)).getD 0 ((0, 0), (0, 0))).2.2 = 0 ∧
    contigNelemts 1 50 1 = 0 := by
  decide

/-- C8 (amended).  The zero clamp holds in frame-writer-str.c — the
scattered per-chunk point count and the contiguous slab extents are
clamped to 1 whenever they floor to 0 (frame-writer-str.c:152, 201-202) —
but sparse.c's `create_hyperslab` applies no clamp: every block of its
contiguous topology uses the raw floored run length `cols * p / 100`
as-is. -/
theorem C8_zero_extent_clamp (rows cols num den dim p : Nat)
    (r : Nat → Nat) :
    1 ≤ fwNumPointsClamped rows cols num den ∧
    1 ≤ fwSlabExtentClamped dim num den ∧
    (∀ blk ∈ contigBlocks rows cols p r, blk.2.2 = contigRunLen cols p) := by
  refine ⟨?_, ?_, ?_⟩
  · rw [fwNumPointsClamped]
    split <;> omega
  · rw [fwSlabExtentClamped]
    split <;> omega
  · intro blk hblk
    rw [contigBlocks] at hblk
    obtain ⟨i, _, rfl⟩ := List.mem_map.mp hblk
    rfl

/-- Witness for C8: clamped frame-writer sizes are at least 1 even when the
raw value floors to 0, while the sparse.c contiguous block keeps run
length 0. -/
theorem C8_zero_extent_clamp_witness :
    1 ≤ fwNumPointsClamped 10 10 1 1000 ∧
    (∀ blk ∈ contigBlocks 1 50 1 (fun _ => 0), blk.2.2 = contigRunLen 50 1) :=
  ⟨(C8_zero_extent_clamp 10 10 1 1000 1 1 (fun _ => 0)).1,
   (C8_zero_extent_clamp 1 50 1 1000 1 1 (fun _ => 0)).2.2⟩

end SparseHDF5
